import Mathlib

/-!
Verification of the pipeline orchestration engine in `src/main.py` of
Project-Build-an-ML-Pipeline-Starter.

The source is a single driver function `go(config)` that
* sets two environment variables (project / run-group identity),
* resolves the selected step list from `config['main']['steps']`
  (`steps_par.split(",") if steps_par != "all" else _steps`),
* opens a scoped temporary directory (`tempfile.TemporaryDirectory`),
* walks a fixed chain of `if "<name>" in active_steps:` blocks, each of which
  binds parameters and launches the step via `mlflow.run` (which raises on a
  non-zero exit of the step process, aborting the remaining blocks),
* for the training step, first serializes `config["modeling"]["random_forest"]`
  as JSON to `os.path.abspath("rf_config.json")` and passes that path as the
  `rf_config` parameter.

The shallow embedding below models configuration values (`CVal`), step
parameter values (`PVal`), the JSON document written for the training step at
the token level (`JTok`), the filesystem visible to the run (`Sys`: a set of
existing directories and a map from paths to written JSON documents), one
`mlflow.run` invocation (`StepLaunch`, which also records the filesystem state
at the moment of the launch), and the run itself (`go` below, driven by a
`runner : String → Nat` oracle giving each launched step its process exit
status, 0 = success, as the external run launcher is out of scope).
-/

namespace Pipeline

/-- A scalar configuration value as found in the resolved configuration tree
(the layered config file is an external collaborator; its values are numbers,
strings or booleans once resolved). -/
inductive CVal where
  | num (n : Int)
  | str (s : String)
  | bool (b : Bool)
deriving DecidableEq

/-- A parameter value passed to `mlflow.run`: either a native Python value
coming straight from the config tree, or a string (literal or produced by
`str(...)`). The three constructors mirror the runtime type of the value. -/
inductive PVal where
  | num (n : Int)
  | str (s : String)
  | bool (b : Bool)
deriving DecidableEq

/-- Passing a config value through to a parameter unchanged (Python keeps the
native type). -/
def toParam : CVal → PVal
  | .num n => .num n
  | .str s => .str s
  | .bool b => .bool b

/-- Python `str(...)` of a scalar config value. -/
def pyStr : CVal → String
  | .num n => toString n
  | .str s => s
  | .bool b => if b then "True" else "False"

/-- Whether a parameter value is a string (as opposed to a native number or
boolean). -/
def PVal.isStringVal : PVal → Bool
  | .str _ => true
  | _ => false

/-- Tokens of the JSON document `json.dump` writes for the flat
`modeling.random_forest` mapping: object delimiters, separators, and scalar
literals. -/
inductive JTok where
  | lbrace
  | rbrace
  | colon
  | comma
  | tstr (s : String)
  | tint (n : Int)
  | tbool (b : Bool)
deriving DecidableEq

/-- Serialization of one scalar value to its JSON token. -/
def dumpVal : CVal → JTok
  | .num n => .tint n
  | .str s => .tstr s
  | .bool b => .tbool b

/-- Serialization of the entries of a JSON object: `"k": v` pairs separated by
commas, mirroring `json.dump` of a Python dict. -/
def dumpEntries : List (String × CVal) → List JTok
  | [] => []
  | [(k, v)] => [.tstr k, .colon, dumpVal v]
  | (k, v) :: e :: rest => .tstr k :: .colon :: dumpVal v :: .comma :: dumpEntries (e :: rest)

/-- Serialization of a whole (flat) JSON object, as written by
`json.dump(dict(config["modeling"]["random_forest"].items()), fp)`. -/
def dumpTokens (o : List (String × CVal)) : List JTok :=
  .lbrace :: (dumpEntries o ++ [.rbrace])

/-- Reading one scalar value back from a JSON token (`json.load` direction). -/
def parseVal : JTok → Option CVal
  | .tint n => some (.num n)
  | .tstr s => some (.str s)
  | .tbool b => some (.bool b)
  | _ => none

/-- Reading the entries of a JSON object back, up to and including the closing
brace. -/
def parseEntries : List JTok → Option (List (String × CVal))
  | [.tstr k, .colon, v, .rbrace] =>
      match parseVal v with
      | some cv => some [(k, cv)]
      | none => none
  | .tstr k :: .colon :: v :: .comma :: rest =>
      match parseVal v, parseEntries rest with
      | some cv, some tail => some ((k, cv) :: tail)
      | _, _ => none
  | _ => none

/-- Reading a whole JSON object back from its token stream. -/
def parseTokens : List JTok → Option (List (String × CVal))
  | [.lbrace, .rbrace] => some []
  | .lbrace :: rest => parseEntries rest
  | _ => none

theorem parseVal_dumpVal (v : CVal) : parseVal (dumpVal v) = some v := by
  cases v <;> rfl

theorem parseEntries_dumpEntries (k : String) (v : CVal) (o : List (String × CVal)) :
    parseEntries (dumpEntries ((k, v) :: o) ++ [.rbrace]) = some ((k, v) :: o) := by
  induction o generalizing k v with
  | nil => simp [dumpEntries, parseEntries, parseVal_dumpVal]
  | cons e rest ih =>
      obtain ⟨k2, v2⟩ := e
      simp [dumpEntries, parseEntries, parseVal_dumpVal, ih]

theorem parseTokens_dumpTokens (o : List (String × CVal)) :
    parseTokens (dumpTokens o) = some o := by
  cases o with
  | nil => rfl
  | cons e rest =>
      obtain ⟨k, v⟩ := e
      cases rest with
      | nil => simp [dumpTokens, dumpEntries, parseTokens, parseEntries, parseVal_dumpVal]
      | cons e2 r2 =>
          have h := parseEntries_dumpEntries k v (e2 :: r2)
          simp only [dumpEntries, List.cons_append] at h
          simp only [dumpTokens, dumpEntries, List.cons_append, parseTokens]
          exact h

/-- Character-level helper for Python `str.split(",")` with a one-character
separator: returns the first token and the list of remaining tokens (so the
result is nonempty by construction, as in Python, where `"".split(",")` is
`[""]`). Every occurrence of the separator delimits tokens; empty tokens are
preserved. -/
def splitCA : List Char → List Char × List (List Char)
  | [] => ([], [])
  | c :: rest =>
      let r := splitCA rest
      if c = ',' then ([], r.1 :: r.2) else (c :: r.1, r.2)

/-- Python `steps_par.split(",")`. -/
def pySplitComma (s : String) : List String :=
  ((splitCA s.data).1 :: (splitCA s.data).2).map (fun cs => String.mk cs)

/-- Joining tokens with a comma between consecutive tokens (the
specification-side characterization of what a comma-separated token list of a
string is: tokens are comma-free and joining them with commas restores the
string). -/
def joinComma : List (List Char) → List Char
  | [] => []
  | [t] => t
  | t :: t2 :: rest => t ++ ',' :: joinComma (t2 :: rest)

theorem splitCA_join (cs : List Char) :
    joinComma ((splitCA cs).1 :: (splitCA cs).2) = cs ∧
    ',' ∉ (splitCA cs).1 ∧ ∀ t ∈ (splitCA cs).2, ',' ∉ t := by
  induction cs with
  | nil => simp [splitCA, joinComma]
  | cons c rest ih =>
      obtain ⟨ihj, ihh, iht⟩ := ih
      by_cases hc : c = ','
      · subst hc
        refine ⟨?_, ?_, ?_⟩
        · simp only [splitCA, if_pos rfl]
          cases h2 : (splitCA rest).2 with
          | nil =>
              rw [h2] at ihj
              simp only [joinComma] at ihj
              simp [joinComma, ihj]
          | cons t2 r2 =>
              rw [h2] at ihj
              simp only [joinComma] at ihj
              simp [joinComma, ihj]
        · simp [splitCA]
        · intro t ht
          simp only [splitCA, if_pos rfl] at ht
          rcases List.mem_cons.mp ht with h | h
          · exact h ▸ ihh
          · exact iht t h
      · refine ⟨?_, ?_, ?_⟩
        · simp only [splitCA, if_neg hc]
          cases h2 : (splitCA rest).2 with
          | nil =>
              rw [h2] at ihj
              simp only [joinComma] at ihj ⊢
              simp [ihj]
          | cons t2 r2 =>
              rw [h2] at ihj
              simp only [joinComma, List.cons_append] at ihj ⊢
              simp [ihj]
        · simp only [splitCA, if_neg hc]
          intro hmem
          rcases List.mem_cons.mp hmem with h | h
          · exact hc h.symm
          · exact ihh h
        · intro t ht
          simp only [splitCA, if_neg hc] at ht
          exact iht t ht

theorem splitCA_comma_free (t : List Char) (h : ',' ∉ t) (cs : List Char) :
    splitCA (t ++ cs) = ((t ++ (splitCA cs).1, (splitCA cs).2)) := by
  induction t with
  | nil => simp
  | cons c t2 ih =>
      have hc : c ≠ ',' := fun he => h (he ▸ List.mem_cons_self c t2)
      have ht2 : ',' ∉ t2 := fun hm => h (List.mem_cons_of_mem c hm)
      simp only [List.cons_append, splitCA, if_neg hc, List.append_eq]
      rw [ih ht2]

theorem splitCA_joinComma (t0 : List Char) (ts : List (List Char))
    (h0 : ',' ∉ t0) (hts : ∀ t ∈ ts, ',' ∉ t) :
    splitCA (joinComma (t0 :: ts)) = (t0, ts) := by
  induction ts generalizing t0 with
  | nil =>
      have := splitCA_comma_free t0 h0 []
      simpa [joinComma, splitCA] using this
  | cons t1 rest ih =>
      have h1 : ',' ∉ t1 := hts t1 (List.mem_cons_self t1 rest)
      have hr : ∀ t ∈ rest, ',' ∉ t := fun t ht => hts t (List.mem_cons_of_mem t1 ht)
      have hrec := ih t1 h1 hr
      simp only [joinComma]
      rw [splitCA_comma_free t0 h0]
      simp [splitCA, hrec]

/-- The `main:` section of the configuration tree (only the keys `go` reads). -/
structure MainConfig where
  project_name : String
  experiment_name : String
  steps : String
  components_repository : String
deriving DecidableEq

/-- The `etl:` section of the configuration tree. -/
structure EtlConfig where
  sample : CVal
  min_price : CVal
  max_price : CVal
deriving DecidableEq

/-- The `data_check:` section of the configuration tree. -/
structure DataCheckConfig where
  kl_threshold : CVal
deriving DecidableEq

/-- The `modeling:` section of the configuration tree. `random_forest` is the
nested hyperparameter block, a flat mapping of scalar values (the source
shallow-converts it with `dict(... .items())` before `json.dump`). -/
structure ModelingConfig where
  test_size : CVal
  random_seed : CVal
  stratify_by : CVal
  val_size : CVal
  max_tfidf_features : CVal
  random_forest : List (String × CVal)
deriving DecidableEq

/-- The resolved run configuration, read-only for the duration of the run. -/
structure RunConfig where
  main : MainConfig
  etl : EtlConfig
  data_check : DataCheckConfig
  modeling : ModelingConfig
deriving DecidableEq

/-- The filesystem state visible to one run: the existing directories and the
JSON documents written so far (`files` maps a path to the token stream written
there; the most recent write of a path shadows earlier ones for lookup). -/
structure Sys where
  dirs : List String
  files : List (String × List JTok)
deriving DecidableEq

/-- One `mlflow.run(location, entry_point, env_manager, parameters)` call, as
recorded on the run trace. `sysAtLaunch` is the filesystem state at the moment
the launch starts (after the step's own pre-launch side effects). -/
structure StepLaunch where
  name : String
  location : String
  entry_point : String
  env_manager : String
  parameters : List (String × PVal)
  sysAtLaunch : Sys
deriving DecidableEq

/-- Outcome of a run: `completed`, or `failed step exitCode` when a step's
process exited with a non-zero status and the raised failure propagated. -/
inductive RunStatus where
  | completed
  | failed (step : String) (exitCode : Nat)
deriving DecidableEq

/-- Everything observable about one invocation of `go`: the environment
variables it set, the final filesystem state, the ordered list of step
launches, and the final status. -/
structure GoResult where
  env : List (String × String)
  sys : Sys
  launches : List StepLaunch
  status : RunStatus
deriving DecidableEq

/-- The module-level `_steps` list of `src/main.py`: the step set used for the
`"all"` selection. `test_regression_model` is deliberately commented out of it
in the source (it must be requested explicitly). -/
def _steps : List String :=
  ["download", "basic_cleaning", "data_check", "data_split", "train_random_forest"]

/-- The canonical order of all known steps: the fixed textual order of the
`if "<name>" in active_steps:` blocks inside `go`. It is `_steps` followed by
the explicit-only evaluation step. -/
def chainOrder : List String :=
  ["download", "basic_cleaning", "data_check", "data_split", "train_random_forest",
   "test_regression_model"]

/-- Step-set resolution:
`active_steps = steps_par.split(",") if steps_par != "all" else _steps`. -/
def resolveSteps (sel : String) : List String :=
  if sel ≠ "all" then pySplitComma sel else _steps

/-- `os.path.join` of a directory and a relative component. -/
def osPathJoin (a b : String) : String := a ++ "/" ++ b

/-- `os.path.abspath("rf_config.json")`: the absolute path of the
hyperparameter side-channel file, resolved against the current working
directory (the source never changes directory into the temporary directory,
so this is the process cwd). -/
def rfConfigPath (cwd : String) : String := osPathJoin cwd "rf_config.json"

/-- Whether path `p` lies inside directory `dir` (i.e. `dir ++ "/"` is a
prefix of `p`, compared character by character). -/
def pathUnder (dir p : String) : Bool := (dir ++ "/").data.isPrefixOf p.data

/-- Pre-launch side effects of a step. Only `train_random_forest` has one: it
serializes `config["modeling"]["random_forest"]` as JSON to `rfConfigPath cwd`
strictly before its launch. -/
def stepEffects (cfg : RunConfig) (cwd : String) (n : String) (sys : Sys) : Sys :=
  if n = "train_random_forest" then
    { sys with files := (rfConfigPath cwd, dumpTokens cfg.modeling.random_forest) :: sys.files }
  else sys

/-- The parameter binder plus launch record for each known step: location,
entry point, environment-manager policy and the exact parameter mapping each
`mlflow.run` call of `src/main.py` passes. Unknown names give a junk record;
the driver only consults the six names of `chainOrder`. -/
def stepLaunchFor (cfg : RunConfig) (cwd : String) (sys : Sys) (n : String) : StepLaunch :=
  if n = "download" then
    { name := n,
      location := cfg.main.components_repository ++ "/get_data",
      entry_point := "main", env_manager := "conda",
      parameters :=
        [("sample", toParam cfg.etl.sample),
         ("artifact_name", .str "sample.csv"),
         ("artifact_type", .str "raw_data"),
         ("artifact_description", .str "Raw file as downloaded")],
      sysAtLaunch := sys }
  else if n = "basic_cleaning" then
    { name := n,
      location := osPathJoin (osPathJoin cwd "src") "basic_cleaning",
      entry_point := "main", env_manager := "conda",
      parameters :=
        [("input_artifact", .str "sample.csv:latest"),
         ("output_artifact", .str "clean_data.csv"),
         ("output_type", .str "clean_data"),
         ("output_description", .str "Cleaned data"),
         ("min_price", toParam cfg.etl.min_price),
         ("max_price", toParam cfg.etl.max_price)],
      sysAtLaunch := sys }
  else if n = "data_check" then
    { name := n,
      location := osPathJoin (osPathJoin cwd "src") "data_check",
      entry_point := "main", env_manager := "conda",
      parameters :=
        [("csv", .str "clean_data.csv:latest"),
         ("ref", .str "clean_data.csv:reference"),
         ("kl_threshold", toParam cfg.data_check.kl_threshold),
         ("min_price", toParam cfg.etl.min_price),
         ("max_price", toParam cfg.etl.max_price)],
      sysAtLaunch := sys }
  else if n = "data_split" then
    { name := n,
      location := osPathJoin cfg.main.components_repository "train_val_test_split",
      entry_point := "main", env_manager := "conda",
      parameters :=
        [("input", .str "clean_data.csv:latest"),
         ("test_size", .str (pyStr cfg.modeling.test_size)),
         ("random_seed", .str (pyStr cfg.modeling.random_seed)),
         ("stratify_by", toParam cfg.modeling.stratify_by)],
      sysAtLaunch := sys }
  else if n = "train_random_forest" then
    { name := n,
      location := osPathJoin (osPathJoin cwd "src") "train_random_forest",
      entry_point := "main", env_manager := "conda",
      parameters :=
        [("trainval_artifact", .str "trainval_data.csv:latest"),
         ("val_size", .str (pyStr cfg.modeling.val_size)),
         ("random_seed", .str (pyStr cfg.modeling.random_seed)),
         ("stratify_by", toParam cfg.modeling.stratify_by),
         ("rf_config", .str (rfConfigPath cwd)),
         ("max_tfidf_features", .str (pyStr cfg.modeling.max_tfidf_features)),
         ("output_artifact", .str "model_export")],
      sysAtLaunch := sys }
  else if n = "test_regression_model" then
    { name := n,
      location := osPathJoin cfg.main.components_repository "test_regression_model",
      entry_point := "main", env_manager := "conda",
      parameters :=
        [("mlflow_model", .str "model_export:v5"),
         ("test_dataset", .str "test_data.csv:latest")],
      sysAtLaunch := sys }
  else
    { name := n, location := "", entry_point := "", env_manager := "",
      parameters := [], sysAtLaunch := sys }

/-- The body of the `with` block of `go`: walk the fixed chain of
`if "<name>" in active_steps:` blocks. A selected step first performs its
pre-launch side effects and is then launched; a non-zero exit status raises,
which aborts the walk immediately (remaining blocks never execute). -/
def runChain (runner : String → Nat) (cfg : RunConfig) (cwd : String)
    (active : List String) : List String → Sys → Sys × List StepLaunch × RunStatus
  | [], sys => (sys, [], .completed)
  | n :: rest, sys =>
      if n ∈ active then
        let sys1 := stepEffects cfg cwd n sys
        let l := stepLaunchFor cfg cwd sys1 n
        if runner n = 0 then
          let r := runChain runner cfg cwd active rest sys1
          (r.1, l :: r.2.1, r.2.2)
        else
          (sys1, [l], .failed n (runner n))
      else
        runChain runner cfg cwd active rest sys

/-- The orchestrator `go(config)`: set the tracking identity environment
variables, resolve the step set, create the scoped temporary directory
(`tmpDir`, fresh w.r.t. `sys0`), run the chain, and tear the temporary
directory down on exit of the `with` block — on the completed and on the
failed path alike, since a raised step failure still unwinds through the
context manager. `runner` gives each launched step its process exit status. -/
def go (runner : String → Nat) (cfg : RunConfig) (cwd tmpDir : String) (sys0 : Sys) :
    GoResult :=
  let active := resolveSteps cfg.main.steps
  let sysIn : Sys := { sys0 with dirs := tmpDir :: sys0.dirs }
  let r := runChain runner cfg cwd active chainOrder sysIn
  { env := [("WANDB_PROJECT", cfg.main.project_name),
            ("WANDB_RUN_GROUP", cfg.main.experiment_name)],
    sys := { r.1 with dirs := r.1.dirs.erase tmpDir },
    launches := r.2.1,
    status := r.2.2 }

/-- The name/status skeleton of a chain walk: which step names get launched,
in which order, and the resulting status. This is `runChain` with the
configuration-, filesystem- and parameter-content dependencies erased; the
bridge lemma below shows it determines the launched names and the status. -/
def execTrace (runner : String → Nat) (active : List String) :
    List String → List String × RunStatus
  | [] => ([], .completed)
  | n :: rest =>
      if n ∈ active then
        (if runner n = 0 then
          let r := execTrace runner active rest
          (n :: r.1, r.2)
        else ([n], .failed n (runner n)))
      else execTrace runner active rest

/-- Replacing the step-selection expression of a configuration, leaving every
other setting unchanged. -/
def withSteps (cfg : RunConfig) (s : String) : RunConfig :=
  { cfg with main := { cfg.main with steps := s } }

/-- An initially empty filesystem, used as a concrete starting state. -/
def sysEmpty : Sys := { dirs := [], files := [] }

/-- A runner oracle under which every step process exits successfully. -/
def zeroRunner : String → Nat := fun _ => 0

/-- A runner oracle under which the `basic_cleaning` step process exits with
status 1 and every other step succeeds. -/
def failBC : String → Nat := fun n => if n = "basic_cleaning" then 1 else 0

/-- A concrete random-forest hyperparameter block used as test data. -/
def rfDefaults : List (String × CVal) :=
  [("n_estimators", .num 100), ("max_depth", .num 15), ("min_samples_split", .num 4),
   ("min_samples_leaf", .num 3), ("n_jobs", .num (-1)), ("criterion", .str "mae"),
   ("max_features", .num 1), ("oob_score", .bool true)]

/-- A concrete run configuration with the given step-selection expression,
used as test data by the witnesses. -/
def mkExCfg (steps : String) : RunConfig :=
  { main := { project_name := "nyc_airbnb", experiment_name := "development",
              steps := steps, components_repository := "components" },
    etl := { sample := .str "sample1.csv", min_price := .num 10, max_price := .num 350 },
    data_check := { kl_threshold := .num 2 },
    modeling := { test_size := .num 42, random_seed := .num 42,
                  stratify_by := .str "neighbourhood_group", val_size := .num 42,
                  max_tfidf_features := .num 5, random_forest := rfDefaults } }

theorem stepLaunchFor_name (cfg : RunConfig) (cwd : String) (sys : Sys) (n : String) :
    (stepLaunchFor cfg cwd sys n).name = n := by
  unfold stepLaunchFor
  split_ifs <;> rfl

theorem stepEffects_dirs (cfg : RunConfig) (cwd : String) (n : String) (sys : Sys) :
    (stepEffects cfg cwd n sys).dirs = sys.dirs := by
  unfold stepEffects
  split_ifs <;> rfl

theorem runChain_trace (runner : String → Nat) (cfg : RunConfig) (cwd : String)
    (active : List String) :
    ∀ (l : List String) (sys : Sys),
      (runChain runner cfg cwd active l sys).2.1.map StepLaunch.name
          = (execTrace runner active l).1 ∧
      (runChain runner cfg cwd active l sys).2.2 = (execTrace runner active l).2 := by
  intro l
  induction l with
  | nil => intro sys; exact ⟨rfl, rfl⟩
  | cons n rest ih =>
      intro sys
      by_cases hm : n ∈ active
      · by_cases hr : runner n = 0
        · simpa [runChain, execTrace, hm, hr, stepLaunchFor_name] using
            ih (stepEffects cfg cwd n sys)
        · simp [runChain, execTrace, hm, hr, stepLaunchFor_name]
      · simpa [runChain, execTrace, hm] using ih sys

theorem runChain_final_dirs (runner : String → Nat) (cfg : RunConfig) (cwd : String)
    (active : List String) :
    ∀ (l : List String) (sys : Sys),
      (runChain runner cfg cwd active l sys).1.dirs = sys.dirs := by
  intro l
  induction l with
  | nil => intro sys; rfl
  | cons n rest ih =>
      intro sys
      by_cases hm : n ∈ active
      · by_cases hr : runner n = 0
        · simpa [runChain, hm, hr, stepEffects_dirs] using ih (stepEffects cfg cwd n sys)
        · simp [runChain, hm, hr, stepEffects_dirs]
      · simpa [runChain, hm] using ih sys

theorem runChain_launch_dirs (runner : String → Nat) (cfg : RunConfig) (cwd : String)
    (active : List String) :
    ∀ (l : List String) (sys : Sys),
      ∀ x ∈ (runChain runner cfg cwd active l sys).2.1, x.sysAtLaunch.dirs = sys.dirs := by
  intro l
  induction l with
  | nil => intro sys x hx; simp [runChain] at hx
  | cons n rest ih =>
      intro sys x hx
      by_cases hm : n ∈ active
      · by_cases hr : runner n = 0
        · simp only [runChain, if_pos hm, if_pos hr, List.mem_cons] at hx
          rcases hx with hx | hx
          · subst hx; simp [stepLaunchFor, stepEffects_dirs]
            split_ifs <;> simp [stepEffects_dirs]
          · have := ih (stepEffects cfg cwd n sys) x hx
            simpa [stepEffects_dirs] using this
        · simp only [runChain, if_pos hm, if_neg hr, List.mem_cons, List.not_mem_nil,
            or_false] at hx
          subst hx
          simp [stepLaunchFor]
          split_ifs <;> simp [stepEffects_dirs]
      · simp only [runChain, if_neg hm] at hx
        exact ih sys x hx

theorem execTrace_sublist (runner : String → Nat) (active : List String) :
    ∀ l : List String, (execTrace runner active l).1.Sublist l := by
  intro l
  induction l with
  | nil => simp [execTrace]
  | cons n rest ih =>
      by_cases hm : n ∈ active
      · by_cases hr : runner n = 0
        · simpa [execTrace, hm, hr] using List.Sublist.cons₂ n ih
        · simp only [execTrace, if_pos hm, if_neg hr]
          exact List.Sublist.cons₂ n (List.nil_sublist rest)
      · simpa [execTrace, hm] using List.Sublist.cons n ih

theorem execTrace_mem_active (runner : String → Nat) (active : List String) :
    ∀ (l : List String) (x : String), x ∈ (execTrace runner active l).1 → x ∈ active := by
  intro l
  induction l with
  | nil => intro x hx; simp [execTrace] at hx
  | cons n rest ih =>
      intro x hx
      by_cases hm : n ∈ active
      · by_cases hr : runner n = 0
        · simp only [execTrace, if_pos hm, if_pos hr, List.mem_cons] at hx
          rcases hx with hx | hx
          · exact hx ▸ hm
          · exact ih x hx
        · simp only [execTrace, if_pos hm, if_neg hr, List.mem_cons, List.not_mem_nil,
            or_false] at hx
          exact hx ▸ hm
      · simp only [execTrace, if_neg hm] at hx
        exact ih x hx

theorem execTrace_all_success (runner : String → Nat) (active : List String)
    (h : ∀ n, runner n = 0) :
    ∀ l : List String,
      (execTrace runner active l).1 = l.filter (fun n => decide (n ∈ active)) ∧
      (execTrace runner active l).2 = .completed := by
  intro l
  induction l with
  | nil => simp [execTrace]
  | cons n rest ih =>
      by_cases hm : n ∈ active
      · simp [execTrace, hm, h n, List.filter_cons, ih.1, ih.2]
      · simp [execTrace, hm, List.filter_cons, ih.1, ih.2]

theorem execTrace_no_active (runner : String → Nat) (active : List String) :
    ∀ l : List String, (∀ n ∈ l, n ∉ active) →
      execTrace runner active l = ([], .completed) := by
  intro l
  induction l with
  | nil => intro _; rfl
  | cons n rest ih =>
      intro h
      have hm : n ∉ active := h n (List.mem_cons_self n rest)
      have := ih (fun x hx => h x (List.mem_cons_of_mem n hx))
      simp [execTrace, hm, this]

theorem execTrace_failed_decomp (runner : String → Nat) (active : List String) :
    ∀ (l : List String) (s : String) (c : Nat),
      (execTrace runner active l).2 = .failed s c →
      runner s = c ∧ c ≠ 0 ∧ s ∈ active ∧
      ∃ l1 l2, l = l1 ++ s :: l2 ∧
        (execTrace runner active l).1 = l1.filter (fun n => decide (n ∈ active)) ++ [s] := by
  intro l
  induction l with
  | nil => intro s c h; simp [execTrace] at h
  | cons n rest ih =>
      intro s c h
      by_cases hm : n ∈ active
      · by_cases hr : runner n = 0
        · simp only [execTrace, if_pos hm, if_pos hr] at h
          obtain ⟨h1, h2, h3, l1, l2, hl, hnames⟩ := ih s c h
          refine ⟨h1, h2, h3, n :: l1, l2, by simp [hl], ?_⟩
          simp [execTrace, hm, hr, hnames, List.filter_cons]
        · simp only [execTrace, if_pos hm, if_neg hr, RunStatus.failed.injEq] at h
          obtain ⟨hs, hc⟩ := h
          subst hs
          refine ⟨hc, by omega, hm, [], rest, rfl, ?_⟩
          simp [execTrace, hm, hr]
      · simp only [execTrace, if_neg hm] at h
        obtain ⟨h1, h2, h3, l1, l2, hl, hnames⟩ := ih s c h
        refine ⟨h1, h2, h3, n :: l1, l2, by simp [hl], ?_⟩
        simp [execTrace, hm, hnames, List.filter_cons]

theorem execTrace_congr (runner : String → Nat) (active1 active2 : List String) :
    ∀ l : List String, (∀ n ∈ l, (n ∈ active1 ↔ n ∈ active2)) →
      execTrace runner active1 l = execTrace runner active2 l := by
  intro l
  induction l with
  | nil => intro _; rfl
  | cons n rest ih =>
      intro h
      have hrest := ih (fun x hx => h x (List.mem_cons_of_mem n hx))
      have hn := h n (List.mem_cons_self n rest)
      by_cases hm : n ∈ active1
      · have hm2 : n ∈ active2 := hn.mp hm
        by_cases hr : runner n = 0
        · simp [execTrace, hm, hm2, hr, hrest]
        · simp [execTrace, hm, hm2, hr]
      · have hm2 : n ∉ active2 := fun hx => hm (hn.mpr hx)
        simp [execTrace, hm, hm2, hrest]

theorem go_names (runner : String → Nat) (cfg : RunConfig) (cwd tmpDir : String) (sys0 : Sys) :
    (go runner cfg cwd tmpDir sys0).launches.map StepLaunch.name
      = (execTrace runner (resolveSteps cfg.main.steps) chainOrder).1 :=
  (runChain_trace runner cfg cwd (resolveSteps cfg.main.steps) chainOrder
    { sys0 with dirs := tmpDir :: sys0.dirs }).1

theorem go_status (runner : String → Nat) (cfg : RunConfig) (cwd tmpDir : String) (sys0 : Sys) :
    (go runner cfg cwd tmpDir sys0).status
      = (execTrace runner (resolveSteps cfg.main.steps) chainOrder).2 :=
  (runChain_trace runner cfg cwd (resolveSteps cfg.main.steps) chainOrder
    { sys0 with dirs := tmpDir :: sys0.dirs }).2

theorem chainOrder_nodup : chainOrder.Nodup := by decide

/-- Claim C1: if the process of a selected step exits non-zero, `go` does not
catch the raised failure: the run's status reports that step with its exit
status, the failing step is the last step launched (the launch list is the
selected prefix of the canonical chain up to and including the failing step,
every earlier launch having succeeded), and no step occurring after the
failing one in canonical order is ever launched. -/
theorem C1_fail_fast (runner : String → Nat) (cfg : RunConfig) (cwd tmpDir : String)
    (sys0 : Sys) (s : String) (c : Nat)
    (h : (go runner cfg cwd tmpDir sys0).status = .failed s c) :
    runner s = c ∧ c ≠ 0 ∧
    ∃ l1 l2, chainOrder = l1 ++ s :: l2 ∧
      (go runner cfg cwd tmpDir sys0).launches.map StepLaunch.name
        = l1.filter (fun n => decide (n ∈ resolveSteps cfg.main.steps)) ++ [s] ∧
      ∀ t ∈ l2, t ∉ (go runner cfg cwd tmpDir sys0).launches.map StepLaunch.name := by
  rw [go_status] at h
  obtain ⟨h1, h2, _, l1, l2, hl, hnames⟩ :=
    execTrace_failed_decomp runner (resolveSteps cfg.main.steps) chainOrder s c h
  refine ⟨h1, h2, l1, l2, hl, ?_, ?_⟩
  · rw [go_names]; exact hnames
  · intro t ht hmem
    have hnd := chainOrder_nodup
    rw [hl, List.nodup_append] at hnd
    obtain ⟨hnd1, hnd2, hdisj⟩ := hnd
    rw [go_names, hnames] at hmem
    rcases List.mem_append.mp hmem with hmem | hmem
    · exact hdisj (List.mem_of_mem_filter hmem) (List.mem_cons_of_mem s ht)
    · have hts : t = s := by simpa using hmem
      exact (List.nodup_cons.mp hnd2).1 (hts ▸ ht)

theorem C1_fail_fast_witness :
    failBC "basic_cleaning" = 1 ∧ (1 : Nat) ≠ 0 ∧
    ∃ l1 l2, chainOrder = l1 ++ "basic_cleaning" :: l2 ∧
      (go failBC (mkExCfg "all") "/work" "/tmp/run1" sysEmpty).launches.map StepLaunch.name
        = l1.filter (fun n => decide (n ∈ resolveSteps (mkExCfg "all").main.steps))
            ++ ["basic_cleaning"] ∧
      ∀ t ∈ l2,
        t ∉ (go failBC (mkExCfg "all") "/work" "/tmp/run1" sysEmpty).launches.map
              StepLaunch.name :=
  C1_fail_fast failBC (mkExCfg "all") "/work" "/tmp/run1" sysEmpty "basic_cleaning" 1
    (by decide)

/-- Claim C2: step-set resolution. For `"all"` the resolved list is exactly
the registry order `_steps`, unchanged. For any other selection expression the
resolved list is exactly the comma-separated tokens of the expression in the
caller's order, duplicates included: the tokens are comma-free, joining them
with commas restores the expression, and any token list with those two
properties is the resolved list. -/
theorem C2_step_set_resolution (s : String) :
    (s = "all" → resolveSteps s = _steps) ∧
    (s ≠ "all" →
      (resolveSteps s).map String.data ≠ [] ∧
      (∀ t ∈ (resolveSteps s).map String.data, ',' ∉ t) ∧
      joinComma ((resolveSteps s).map String.data) = s.data ∧
      ∀ (t0 : List Char) (ts : List (List Char)),
        ',' ∉ t0 → (∀ t ∈ ts, ',' ∉ t) → joinComma (t0 :: ts) = s.data →
        (resolveSteps s).map String.data = t0 :: ts) := by
  constructor
  · intro hs
    simp [resolveSteps, hs]
  · intro hs
    have hres : resolveSteps s = pySplitComma s := by simp [resolveSteps, hs]
    have hdata : (resolveSteps s).map String.data
        = (splitCA s.data).1 :: (splitCA s.data).2 := by
      rw [hres]
      show (((splitCA s.data).1 :: (splitCA s.data).2).map (fun cs => String.mk cs)).map
        String.data = (splitCA s.data).1 :: (splitCA s.data).2
      rw [List.map_map]
      exact List.map_id ((splitCA s.data).1 :: (splitCA s.data).2)
    obtain ⟨hjoin, hhead, htail⟩ := splitCA_join s.data
    refine ⟨by simp [hdata], ?_, by simp [hdata, hjoin], ?_⟩
    · intro t ht
      rw [hdata] at ht
      rcases List.mem_cons.mp ht with h | h
      · exact h ▸ hhead
      · exact htail t h
    · intro t0 ts h0 hts hj
      have := splitCA_joinComma t0 ts h0 hts
      rw [hj] at this
      rw [hdata, Prod.ext_iff] at *
      simp only [this]

theorem C2_step_set_resolution_witness :
    resolveSteps "all" = _steps ∧
    ((resolveSteps "download,download,bogus_step").map String.data ≠ [] ∧
     (∀ t ∈ (resolveSteps "download,download,bogus_step").map String.data, ',' ∉ t) ∧
     joinComma ((resolveSteps "download,download,bogus_step").map String.data)
       = ("download,download,bogus_step").data ∧
     ∀ (t0 : List Char) (ts : List (List Char)),
       ',' ∉ t0 → (∀ t ∈ ts, ',' ∉ t) →
       joinComma (t0 :: ts) = ("download,download,bogus_step").data →
       (resolveSteps "download,download,bogus_step").map String.data = t0 :: ts) :=
  ⟨(C2_step_set_resolution "all").1 rfl,
   (C2_step_set_resolution "download,download,bogus_step").2 (by decide)⟩

/-- Claim C3 is refuted by the code (code bug): the hyperparameter JSON file
is written at `os.path.abspath("rf_config.json")`, i.e. under the current
working directory — the `tmp_dir` bound by the `with` block is never used for
it (the source's own comment says `Move to a temporary directory`, but no
directory change happens). This theorem evaluates the model at a failing
input: a run selecting only the training step with cwd `/work` and scoped
temporary directory `/tmp/run1`. It launches exactly the training step; the
hyperparameter file is written, before the launch, at `/work/rf_config.json`
(which is where the `rf_config` parameter points), a path that does not lie
under the scoped temporary directory; and the path does not depend on the
temporary directory at all (any other `tmpDir` yields the same launches). The
second half of the claim — the absolute path is passed as the `rf_config`
parameter — does hold. -/
theorem C3_rf_config_outside_tmpdir :
    (go zeroRunner (mkExCfg "train_random_forest") "/work" "/tmp/run1" sysEmpty).launches.map
        StepLaunch.name = ["train_random_forest"] ∧
    (go zeroRunner (mkExCfg "train_random_forest") "/work" "/tmp/run1" sysEmpty).launches.map
        (fun l => l.parameters.lookup "rf_config")
      = [some (PVal.str "/work/rf_config.json")] ∧
    (go zeroRunner (mkExCfg "train_random_forest") "/work" "/tmp/run1" sysEmpty).launches.map
        (fun l => l.sysAtLaunch.files.lookup "/work/rf_config.json")
      = [some (dumpTokens (mkExCfg "train_random_forest").modeling.random_forest)] ∧
    rfConfigPath "/work" = "/work/rf_config.json" ∧
    pathUnder "/tmp/run1" "/work/rf_config.json" = false ∧
    (go zeroRunner (mkExCfg "train_random_forest") "/work" "/tmp/other" sysEmpty).launches.map
        (fun l => (l.parameters.lookup "rf_config", l.sysAtLaunch.files))
      = (go zeroRunner (mkExCfg "train_random_forest") "/work" "/tmp/run1" sysEmpty).launches.map
        (fun l => (l.parameters.lookup "rf_config", l.sysAtLaunch.files)) := by
  refine ⟨by decide, by decide, by decide, rfl, by decide, by decide⟩

/-- Claim C4, amended. The claim says every numeric configuration value bound
for a step that expects strings — seeds, split ratios, and thresholds — is
stringified by the binder. The code stringifies only the seed, split-ratio
and tf-idf-size values of the `data_split` and `train_random_forest` steps
(`test_size`, `random_seed`, `val_size`, `max_tfidf_features`, via
`str(...)`); the threshold values (`kl_threshold` of `data_check`, `min_price`
and `max_price` of `basic_cleaning` and `data_check`) are passed through as
native config values with no conversion. -/
theorem C4_stringification (cfg : RunConfig) (cwd : String) (sys : Sys) :
    (stepLaunchFor cfg cwd sys "data_split").parameters.lookup "test_size"
        = some (.str (pyStr cfg.modeling.test_size)) ∧
    (stepLaunchFor cfg cwd sys "data_split").parameters.lookup "random_seed"
        = some (.str (pyStr cfg.modeling.random_seed)) ∧
    (stepLaunchFor cfg cwd sys "train_random_forest").parameters.lookup "val_size"
        = some (.str (pyStr cfg.modeling.val_size)) ∧
    (stepLaunchFor cfg cwd sys "train_random_forest").parameters.lookup "random_seed"
        = some (.str (pyStr cfg.modeling.random_seed)) ∧
    (stepLaunchFor cfg cwd sys "train_random_forest").parameters.lookup "max_tfidf_features"
        = some (.str (pyStr cfg.modeling.max_tfidf_features)) ∧
    (stepLaunchFor cfg cwd sys "data_check").parameters.lookup "kl_threshold"
        = some (toParam cfg.data_check.kl_threshold) ∧
    (stepLaunchFor cfg cwd sys "basic_cleaning").parameters.lookup "min_price"
        = some (toParam cfg.etl.min_price) ∧
    (stepLaunchFor cfg cwd sys "basic_cleaning").parameters.lookup "max_price"
        = some (toParam cfg.etl.max_price) := by
  exact ⟨rfl, rfl, rfl, rfl, rfl, rfl, rfl, rfl⟩

/-- Counterexample to claim C4 as stated: with the numeric threshold config
value `kl_threshold = 2`, the parameter the binder passes to the `data_check`
step is the native number `2`, not a string — in particular not the string
form `"2"` that the claim requires for thresholds. -/
theorem C4_counterexample :
    (stepLaunchFor (mkExCfg "data_check") "/work" sysEmpty "data_check").parameters.lookup
        "kl_threshold" = some (PVal.num 2) ∧
    PVal.isStringVal (PVal.num 2) = false ∧
    PVal.num 2 ≠ PVal.str (pyStr (CVal.num 2)) := by
  refine ⟨by decide, rfl, by decide⟩

/-- Claim C5: unknown step names are a silent no-op. Every step name that is
ever launched is one of the known chain names (so a selection token naming no
known step never causes any launch), and a run whose whole selection is the
unknown token `"bogus_step"` launches zero steps and finishes with status
`completed` — no error is raised. -/
theorem C5_unknown_step_noop (runner : String → Nat) (cfg : RunConfig)
    (cwd tmpDir : String) (sys0 : Sys) :
    (∀ x ∈ (go runner cfg cwd tmpDir sys0).launches.map StepLaunch.name, x ∈ chainOrder) ∧
    (cfg.main.steps = "bogus_step" →
      (go runner cfg cwd tmpDir sys0).launches = [] ∧
      (go runner cfg cwd tmpDir sys0).status = .completed) := by
  constructor
  · intro x hx
    rw [go_names] at hx
    exact (execTrace_sublist runner (resolveSteps cfg.main.steps) chainOrder).mem hx
  · intro hsel
    have hnone : ∀ n ∈ chainOrder, n ∉ resolveSteps cfg.main.steps := by
      rw [hsel]; decide
    have htr := execTrace_no_active runner (resolveSteps cfg.main.steps) chainOrder hnone
    constructor
    · have hmap := go_names runner cfg cwd tmpDir sys0
      rw [htr] at hmap
      exact List.map_eq_nil_iff.mp hmap
    · rw [go_status, htr]

theorem C5_unknown_step_noop_witness :
    (∀ x ∈ (go zeroRunner (mkExCfg "bogus_step") "/work" "/tmp/run1" sysEmpty).launches.map
        StepLaunch.name, x ∈ chainOrder) ∧
    ((go zeroRunner (mkExCfg "bogus_step") "/work" "/tmp/run1" sysEmpty).launches = [] ∧
     (go zeroRunner (mkExCfg "bogus_step") "/work" "/tmp/run1" sysEmpty).status
       = .completed) :=
  ⟨(C5_unknown_step_noop zeroRunner (mkExCfg "bogus_step") "/work" "/tmp/run1" sysEmpty).1,
   (C5_unknown_step_noop zeroRunner (mkExCfg "bogus_step") "/work" "/tmp/run1" sysEmpty).2 rfl⟩

/-- Claim C6: the scoped temporary directory. Provided the directory name is
fresh (it does not already exist), during every step launch of the run the
directory set is exactly the initial one extended by the single temporary
directory (so the directory exists for the whole of `Running`, and exactly
one ephemeral directory is created), and after `go` returns — through the
completed path or the failed path, since the statement holds for every runner
oracle — the directory set is back to the initial one: the temporary
directory no longer exists, no leak on either path. -/
theorem C6_tmpdir_cleanup (runner : String → Nat) (cfg : RunConfig)
    (cwd tmpDir : String) (sys0 : Sys) (h : tmpDir ∉ sys0.dirs) :
    (∀ l ∈ (go runner cfg cwd tmpDir sys0).launches,
        l.sysAtLaunch.dirs = tmpDir :: sys0.dirs) ∧
    (go runner cfg cwd tmpDir sys0).sys.dirs = sys0.dirs ∧
    tmpDir ∉ (go runner cfg cwd tmpDir sys0).sys.dirs := by
  have hdirs :
      (go runner cfg cwd tmpDir sys0).sys.dirs = sys0.dirs := by
    show ((runChain runner cfg cwd (resolveSteps cfg.main.steps) chainOrder
        { sys0 with dirs := tmpDir :: sys0.dirs }).1.dirs.erase tmpDir) = sys0.dirs
    rw [runChain_final_dirs]
    exact List.erase_cons_head tmpDir sys0.dirs
  refine ⟨?_, hdirs, by rw [hdirs]; exact h⟩
  intro l hl
  exact runChain_launch_dirs runner cfg cwd (resolveSteps cfg.main.steps) chainOrder
    { sys0 with dirs := tmpDir :: sys0.dirs } l hl

theorem C6_tmpdir_cleanup_witness :
    ("/tmp/run1" ∉ sysEmpty.dirs) ∧
    ((∀ l ∈ (go failBC (mkExCfg "all") "/work" "/tmp/run1" sysEmpty).launches,
        l.sysAtLaunch.dirs = "/tmp/run1" :: sysEmpty.dirs) ∧
     (go failBC (mkExCfg "all") "/work" "/tmp/run1" sysEmpty).sys.dirs = sysEmpty.dirs ∧
     "/tmp/run1" ∉ (go failBC (mkExCfg "all") "/work" "/tmp/run1" sysEmpty).sys.dirs) :=
  ⟨by decide,
   C6_tmpdir_cleanup failBC (mkExCfg "all") "/work" "/tmp/run1" sysEmpty (by decide)⟩

/-- Claim C7: for every selection the sequence of launched step names is a
subsequence of the canonical chain order (which is the registry `_steps`
followed by the explicit-only evaluation step), hence no step is launched
twice in one run even when its name is duplicated in the selection; and the
launched sequence depends on the selection only through which chain names it
contains — two selections containing the same chain names (in any order, with
any duplication) launch the same step names in the same order. -/
theorem C7_execution_order (runner : String → Nat) (cfg : RunConfig)
    (cwd tmpDir : String) (sys0 : Sys) :
    ((go runner cfg cwd tmpDir sys0).launches.map StepLaunch.name).Sublist chainOrder ∧
    ((go runner cfg cwd tmpDir sys0).launches.map StepLaunch.name).Nodup ∧
    chainOrder = _steps ++ ["test_regression_model"] ∧
    ∀ s1 s2 : String,
      (∀ n ∈ chainOrder, (n ∈ resolveSteps s1 ↔ n ∈ resolveSteps s2)) →
      (go runner (withSteps cfg s1) cwd tmpDir sys0).launches.map StepLaunch.name
        = (go runner (withSteps cfg s2) cwd tmpDir sys0).launches.map StepLaunch.name := by
  have hsub : ((go runner cfg cwd tmpDir sys0).launches.map StepLaunch.name).Sublist
      chainOrder := by
    rw [go_names]
    exact execTrace_sublist runner (resolveSteps cfg.main.steps) chainOrder
  refine ⟨hsub, hsub.nodup chainOrder_nodup, rfl, ?_⟩
  intro s1 s2 hiff
  rw [go_names, go_names]
  exact congrArg Prod.fst (execTrace_congr runner (resolveSteps s1) (resolveSteps s2)
    chainOrder hiff)

theorem C7_execution_order_witness :
    ((go zeroRunner (mkExCfg "all") "/work" "/tmp/run1" sysEmpty).launches.map
        StepLaunch.name).Sublist chainOrder ∧
    (go zeroRunner (withSteps (mkExCfg "all") "data_check,download") "/work" "/tmp/run1"
        sysEmpty).launches.map StepLaunch.name
      = (go zeroRunner (withSteps (mkExCfg "all") "download,download,data_check") "/work"
          "/tmp/run1" sysEmpty).launches.map StepLaunch.name :=
  ⟨(C7_execution_order zeroRunner (mkExCfg "all") "/work" "/tmp/run1" sysEmpty).1,
   (C7_execution_order zeroRunner (mkExCfg "all") "/work" "/tmp/run1" sysEmpty).2.2.2
     "data_check,download" "download,download,data_check" (by decide)⟩

/-- Claim C8: artifact wiring between download and cleaning. The download
step's published artifact name parameter is the string `"sample.csv"`, and the
string bound as `input_artifact` for the cleaning step is exactly that base
name concatenated with `":"` and the selector `"latest"` — concatenation with
no other transformation. -/
theorem C8_artifact_wiring (cfg : RunConfig) (cwd : String) (sys : Sys) :
    (stepLaunchFor cfg cwd sys "download").parameters.lookup "artifact_name"
        = some (.str "sample.csv") ∧
    (stepLaunchFor cfg cwd sys "basic_cleaning").parameters.lookup "input_artifact"
        = some (.str ("sample.csv" ++ ":" ++ "latest")) :=
  ⟨rfl, rfl⟩

/-- Claim C9: hyperparameter file round-trip. For every run configuration, the
JSON document the training step's pre-launch effect writes at the side-channel
path, looked up from the filesystem and parsed back, is exactly the nested
`modeling.random_forest` configuration sub-tree. -/
theorem C9_rf_roundtrip (cfg : RunConfig) (cwd : String) (sys : Sys) :
    ((stepEffects cfg cwd "train_random_forest" sys).files.lookup (rfConfigPath cwd)).bind
        parseTokens = some cfg.modeling.random_forest := by
  simp [stepEffects, List.lookup, parseTokens_dumpTokens]

/-- Claim C10: the `"all"` selection never launches the evaluation step. For
every runner and configuration whose selection is `"all"`,
`test_regression_model` is not among the launched step names — the `"all"`
step list is exactly the five registry steps — whereas any selection whose
resolved token list names `test_regression_model` does launch it (in a run
whose launched steps all succeed). -/
theorem C10_evaluation_step_gating :
    (∀ (runner : String → Nat) (cfg : RunConfig) (cwd tmpDir : String) (sys0 : Sys),
        cfg.main.steps = "all" →
        "test_regression_model" ∉
          (go runner cfg cwd tmpDir sys0).launches.map StepLaunch.name) ∧
    (∀ (runner : String → Nat) (cfg : RunConfig) (cwd tmpDir : String) (sys0 : Sys),
        "test_regression_model" ∈ resolveSteps cfg.main.steps →
        (∀ n, runner n = 0) →
        "test_regression_model" ∈
          (go runner cfg cwd tmpDir sys0).launches.map StepLaunch.name) ∧
    resolveSteps "all"
      = ["download", "basic_cleaning", "data_check", "data_split", "train_random_forest"] := by
  refine ⟨?_, ?_, rfl⟩
  · intro runner cfg cwd tmpDir sys0 hsel hmem
    rw [go_names] at hmem
    have hact := execTrace_mem_active runner (resolveSteps cfg.main.steps) chainOrder
      "test_regression_model" hmem
    rw [hsel] at hact
    exact absurd hact (by decide)
  · intro runner cfg cwd tmpDir sys0 hmem hall
    rw [go_names,
      (execTrace_all_success runner (resolveSteps cfg.main.steps) hall chainOrder).1,
      List.mem_filter]
    exact ⟨by decide, decide_eq_true hmem⟩

theorem C10_evaluation_step_gating_witness :
    "test_regression_model" ∉
      (go zeroRunner (mkExCfg "all") "/work" "/tmp/run1" sysEmpty).launches.map
        StepLaunch.name ∧
    "test_regression_model" ∈
      (go zeroRunner (mkExCfg "test_regression_model") "/work" "/tmp/run1"
        sysEmpty).launches.map StepLaunch.name :=
  ⟨C10_evaluation_step_gating.1 zeroRunner (mkExCfg "all") "/work" "/tmp/run1" sysEmpty rfl,
   C10_evaluation_step_gating.2.1 zeroRunner (mkExCfg "test_regression_model") "/work"
     "/tmp/run1" sysEmpty (by decide) (fun _ => rfl)⟩

end Pipeline
